import Mathlib

/-!
Verification of the die-yield calculator engine (`src/app.py`).

The engine is embedded shallowly:
* geometry and the defect-injection pipeline work over exact rationals `ℚ`
  (the Python code uses floats; the claims under study are about the exact
  arithmetic the formulas denote);
* the yield-model formulas (`compute_yield_fraction`) use `ℝ`, since they
  involve `exp` and `sqrt`;
* Python's global pseudo-random generator is modelled by an explicit stream:
  `random.seed(s)` followed by successive `random.random()` calls is a
  deterministic sequence, represented by a function `rand : ℤ → ℕ → ℚ`
  (seed ↦ draw index ↦ value); the unseeded ambient generator is a stream
  `amb : ℕ → ℚ` together with the current position in it.
-/

namespace DieYield

/-- The `status` strings a die dictionary can carry in `src/app.py`:
`"pending" | "good_physical" | "partial" | "lost" | "good" | "defective"`
(`partialDie` stands for the string `"partial"`). -/
inductive Status where
  | pending
  | good_physical
  | partialDie
  | lost
  | good
  | defective
deriving DecidableEq, Repr

/-- The `substrate_type` string together with the `substrate_params` dict:
`"Wafer"` carries `{radius, effective_radius}` and `"Panel"` carries
`{panel_width, panel_height, edge_loss}`. -/
inductive Substrate where
  | wafer (radius effective_radius : ℚ)
  | panel (panel_width panel_height edge_loss : ℚ)
deriving DecidableEq, Repr

/-- A die dictionary: `{"x": ..., "y": ..., "corners": [...], "status": ...}`. -/
structure Die where
  x : ℚ
  y : ℚ
  corners : List (ℚ × ℚ)
  status : Status
deriving DecidableEq, Repr

/-- `is_inside_wafer(x, y, effective_radius)`:
`(x**2 + y**2) <= effective_radius**2`. -/
def is_inside_wafer (x y effective_radius : ℚ) : Bool :=
  decide (x ^ 2 + y ^ 2 ≤ effective_radius ^ 2)

/-- `is_inside_panel(x, y, panel_width, panel_height, margin)`:
`(x >= margin) and (x <= panel_width - margin) and (y >= margin) and
(y <= panel_height - margin)`. -/
def is_inside_panel (x y panel_width panel_height margin : ℚ) : Bool :=
  decide (margin ≤ x ∧ x ≤ panel_width - margin ∧ margin ≤ y ∧ y ≤ panel_height - margin)

/-- The corner inside-test `classify_die` applies, dispatching on the
substrate type exactly as the `if substrate_type == "Wafer"` branch does. -/
def insideTest (sub : Substrate) (c : ℚ × ℚ) : Bool :=
  match sub with
  | .wafer _ er => is_inside_wafer c.1 c.2 er
  | .panel pw ph el => is_inside_panel c.1 c.2 pw ph el

/-- `classify_die(die, substrate_type, substrate_params)`: count the corners
inside, then `4 → "good_physical"`, `> 0 → "partial"`, else `"lost"`. The
Python accumulation loop over `die["corners"]` is a left fold. -/
def classify_die (die : Die) (sub : Substrate) : Status :=
  let inside_count :=
    die.corners.foldl (fun acc c => if insideTest sub c then acc + 1 else acc) 0
  if inside_count = 4 then .good_physical
  else if inside_count > 0 then .partialDie
  else .lost

/-- `np.arange(start, stop, step)` for a positive `step`, idealized over `ℚ`:
`⌈(stop - start) / step⌉` entries `start + i * step`. -/
def arange (start stop step : ℚ) : List ℚ :=
  (List.range (Int.ceil ((stop - start) / step)).toNat).map (fun i => start + (i : ℚ) * step)

/-- The shot-origin grids built at the top of `compute_geometry`:
Wafer tiles `[-radius, radius)`, Panel tiles `[0, panel_dim)`. -/
def shot_positions (sub : Substrate) (shot_width shot_height : ℚ) : List ℚ × List ℚ :=
  match sub with
  | .wafer radius _ => (arange (-radius) radius shot_width, arange (-radius) radius shot_height)
  | .panel pw ph _ => (arange 0 pw shot_width, arange 0 ph shot_height)

/-- `int((shot_dim + scribe) // (die_dim + scribe))`, the per-axis die count
of `compute_geometry`; a negative floor maps to `0` dies, matching
`range` of a non-positive number being empty. -/
def num_dice (shot_dim die_dim scribe : ℚ) : ℕ :=
  (Int.floor ((shot_dim + scribe) / (die_dim + scribe))).toNat

/-- `compute_geometry(substrate_type, substrate_params, shot_width,
shot_height, die_width, die_height, scribe_x, scribe_y)`: the four nested
loops appending dictionaries to `dice_positions`, as nested list binds. -/
def compute_geometry (sub : Substrate)
    (shot_width shot_height die_width die_height scribe_x scribe_y : ℚ) : List Die :=
  let pos := shot_positions sub shot_width shot_height
  pos.1.flatMap (fun shot_x =>
    pos.2.flatMap (fun shot_y =>
      let num_dice_x := num_dice shot_width die_width scribe_x
      let num_dice_y := num_dice shot_height die_height scribe_y
      (List.range num_dice_x).flatMap (fun (i : ℕ) =>
        (List.range num_dice_y).map (fun (j : ℕ) =>
          let die_x := shot_x + (i : ℚ) * (die_width + scribe_x)
          let die_y := shot_y + (j : ℚ) * (die_height + scribe_y)
          { x := die_x
            y := die_y
            corners := [(die_x, die_y), (die_x + die_width, die_y),
                        (die_x, die_y + die_height), (die_x + die_width, die_y + die_height)]
            status := Status.pending }))))

/-- The loop body of `inject_defects`: walk the dice, and for each die with
status `"good_physical"` consume one `random.random()` draw from the stream
(`k` is the current position in the stream) and resolve the die to `"good"`
if the draw is `< yield_fraction`, else `"defective"`. Returns the updated
dice together with the final stream position. -/
def inject_go (stream : ℕ → ℚ) (yield_fraction : ℚ) : ℕ → List Die → List Die × ℕ
  | k, [] => ([], k)
  | k, d :: ds =>
    if d.status = Status.good_physical then
      let rest := inject_go stream yield_fraction (k + 1) ds
      ({ d with status := if stream k < yield_fraction then Status.good else Status.defective }
         :: rest.1, rest.2)
    else
      let rest := inject_go stream yield_fraction k ds
      (d :: rest.1, rest.2)

/-- `inject_defects(dice_list, yield_fraction, seed)`: the seeded generator's
draw sequence is the `stream` argument, consumed from position `0`
(as `random.seed(seed)` resets the generator). -/
def inject_defects (dice_list : List Die) (yield_fraction : ℚ) (stream : ℕ → ℚ) : List Die :=
  (inject_go stream yield_fraction 0 dice_list).1

section YieldModel

open Classical

/-- `compute_yield_fraction(defect_rate, critical_area, model)`:
`D = defect_rate * (critical_area / 100.0)` followed by the string-keyed
branch over the five model formulas, with `else` falling back to Poisson. -/
noncomputable def compute_yield_fraction (defect_rate critical_area : ℝ) (model : String) : ℝ :=
  let D := defect_rate * (critical_area / 100)
  if model = "Poisson" then Real.exp (-D)
  else if model = "Murphy" then
    (if D ≠ 0 then ((1 - Real.exp (-D)) / D) ^ 2 else 1)
  else if model = "Rectangular" then
    (if D ≠ 0 then (1 - Real.exp (-2 * D)) / (2 * D) else 1)
  else if model = "Moore" then Real.exp (-Real.sqrt D)
  else if model = "Seeds" then 1 / (1 + D)
  else Real.exp (-D)

end YieldModel

/-- One entry of the `sim_results` list built by `run_simulation`
(`partialDie` stands for the key `"partial"`). -/
structure TrialResult where
  total : ℕ
  good_physical : ℕ
  good : ℕ
  defective : ℕ
  partialDie : ℕ
  lost : ℕ
  fab_yield : ℚ
  dice : List Die
deriving DecidableEq, Repr

/-- The tallying block at the end of each `run_simulation` iteration:
the four status counts, `fab_yield = good/(good+defective)` guarded by a
zero-denominator check, `total = len(dice)`, and the post-injection
`good_physical` count `status in ["good", "defective"]`. -/
def tally (dice : List Die) : TrialResult :=
  let count_good := dice.countP (fun d => d.status == Status.good)
  let count_defective := dice.countP (fun d => d.status == Status.defective)
  let count_part := dice.countP (fun d => d.status == Status.partialDie)
  let count_lost := dice.countP (fun d => d.status == Status.lost)
  { total := dice.length
    good_physical := dice.countP (fun d => d.status == Status.good || d.status == Status.defective)
    good := count_good
    defective := count_defective
    partialDie := count_part
    lost := count_lost
    fab_yield :=
      if 0 < count_good + count_defective then
        (count_good : ℚ) / ((count_good : ℚ) + (count_defective : ℚ))
      else 0
    dice := dice }

/-- The reclassification step at the top of each `run_simulation` iteration:
`dice_copy = [d.copy() for d in base_dice]` followed by
`d["status"] = classify_die(d, ...)` for each copy. -/
def classify_all (base_dice : List Die) (sub : Substrate) : List Die :=
  base_dice.map (fun d => { d with status := classify_die d sub })

/-- The `for run in range(sim_runs)` loop of `run_simulation`. `run` is the
loop index, `rem` the number of iterations left, and `pos` the current
position of the ambient (unseeded) random stream `amb`: with
`random_seed = None` no reseeding happens, so the ambient stream keeps
advancing across trials by the number of draws consumed; with a provided
seed, trial `run` reads the freshly seeded stream `rand (s + run)`. -/
def run_sim_go (rand : ℤ → ℕ → ℚ) (amb : ℕ → ℚ) (base_dice : List Die) (sub : Substrate)
    (yield_fraction : ℚ) (random_seed : Option ℤ) : ℕ → ℕ → ℕ → List TrialResult
  | _, 0, _ => []
  | run, rem + 1, pos =>
    let dice_copy := classify_all base_dice sub
    match random_seed with
    | some s =>
        tally (inject_defects dice_copy yield_fraction (rand (s + (run : ℤ)))) ::
          run_sim_go rand amb base_dice sub yield_fraction random_seed (run + 1) rem pos
    | none =>
        let r := inject_go (fun i => amb (pos + i)) yield_fraction 0 dice_copy
        tally r.1 ::
          run_sim_go rand amb base_dice sub yield_fraction random_seed (run + 1) rem (pos + r.2)

/-- `run_simulation(sim_runs, base_dice, substrate_type, substrate_params,
yield_fraction, random_seed)`. `rand` is the seeded-generator model and
`amb` the ambient generator (used only when `random_seed` is `None`);
`sim_runs` is an `int`, and `range(sim_runs)` of a non-positive argument is
empty, hence the recursion on `sim_runs.toNat`. -/
def run_simulation (rand : ℤ → ℕ → ℚ) (amb : ℕ → ℚ) (sim_runs : ℤ) (base_dice : List Die)
    (sub : Substrate) (yield_fraction : ℚ) (random_seed : Option ℤ) : List TrialResult :=
  run_sim_go rand amb base_dice sub yield_fraction random_seed 0 sim_runs.toNat 0

/-! ### Helper lemmas -/

lemma foldl_count {α : Type} (p : α → Bool) :
    ∀ (l : List α) (n : ℕ),
      l.foldl (fun acc c => if p c then acc + 1 else acc) n = n + l.countP p
  | [], n => by simp
  | c :: l, n => by
    by_cases h : p c <;>
      simp [List.foldl_cons, List.countP_cons, h, foldl_count p l] <;> omega

/-- The accumulation loop of `classify_die` counts exactly the corners that
pass the substrate inside-test, so classification is the three-way decision
on that count. -/
lemma classify_die_eq (die : Die) (sub : Substrate) :
    classify_die die sub =
      (if die.corners.countP (insideTest sub) = 4 then Status.good_physical
       else if 0 < die.corners.countP (insideTest sub) then Status.partialDie
       else Status.lost) := by
  unfold classify_die
  rw [foldl_count]
  simp only [Nat.zero_add, gt_iff_lt]

lemma classify_die_status_cases (die : Die) (sub : Substrate) :
    classify_die die sub = Status.good_physical ∨ classify_die die sub = Status.partialDie
      ∨ classify_die die sub = Status.lost := by
  rw [classify_die_eq]
  split_ifs <;> simp

lemma countP_ext {α : Type} (p q : α → Bool) :
    ∀ (l : List α), (∀ a ∈ l, p a = q a) → l.countP p = l.countP q
  | [], _ => rfl
  | a :: l, h => by
    simp only [List.countP_cons, h a (by simp),
      countP_ext p q l (fun b hb => h b (by simp [hb]))]

/-- Two wafer substrates whose effective radii have equal squares classify
every die identically. -/
lemma classify_wafer_congr (die : Die) (rad er1 er2 : ℚ) (h : er1 ^ 2 = er2 ^ 2) :
    classify_die die (Substrate.wafer rad er1) = classify_die die (Substrate.wafer rad er2) := by
  have hp : ∀ c ∈ die.corners,
      insideTest (Substrate.wafer rad er1) c = insideTest (Substrate.wafer rad er2) c := by
    intro c _
    simp only [insideTest, is_inside_wafer]
    rw [decide_eq_decide, h]
  rw [classify_die_eq, classify_die_eq, countP_ext _ _ _ hp]

lemma length_flatMap_const {α β : Type} (l : List α) (f : α → List β) (c : ℕ)
    (h : ∀ a ∈ l, (f a).length = c) : (l.flatMap f).length = l.length * c := by
  induction l with
  | nil => simp
  | cons a l ih =>
    simp only [List.flatMap_cons, List.length_append, List.length_cons,
      h a (by simp), ih (fun b hb => h b (by simp [hb]))]
    ring

lemma flatMap_const_nil {α β : Type} (l : List α) :
    l.flatMap (fun _ => ([] : List β)) = [] := by
  induction l <;> simp_all

/-- Frame behavior of the `inject_defects` loop, relating each input die to
the corresponding output die, for any starting stream position. -/
lemma inject_go_forall₂ (stream : ℕ → ℚ) (yf : ℚ) :
    ∀ (l : List Die) (k : ℕ),
      List.Forall₂ (fun d e => e.x = d.x ∧ e.y = d.y ∧ e.corners = d.corners
        ∧ (d.status ≠ Status.good_physical → e = d)
        ∧ (d.status = Status.good_physical →
            e.status = Status.good ∨ e.status = Status.defective))
        l (inject_go stream yf k l).1
  | [], _ => by simp [inject_go]
  | d :: ds, k => by
    by_cases h : d.status = Status.good_physical
    · simp only [inject_go, if_pos h]
      refine List.Forall₂.cons ⟨rfl, rfl, rfl, fun hc => absurd h hc, fun _ => ?_⟩
        (inject_go_forall₂ stream yf ds (k + 1))
      by_cases hs : stream k < yf <;> simp [hs]
    · simp only [inject_go, if_neg h]
      exact List.Forall₂.cons ⟨rfl, rfl, rfl, fun _ => rfl, fun hg => absurd hg h⟩
        (inject_go_forall₂ stream yf ds k)

/-- After injection, a list whose statuses were all
`good_physical | partial | lost` has statuses among
`good | defective | partial | lost`. -/
lemma inject_go_status (stream : ℕ → ℚ) (yf : ℚ) :
    ∀ (l : List Die) (k : ℕ),
      (∀ d ∈ l, d.status = Status.good_physical ∨ d.status = Status.partialDie
        ∨ d.status = Status.lost) →
      ∀ e ∈ (inject_go stream yf k l).1,
        e.status = Status.good ∨ e.status = Status.defective
          ∨ e.status = Status.partialDie ∨ e.status = Status.lost
  | [], _, _ => by simp [inject_go]
  | d :: ds, k, h => by
    have hds : ∀ b ∈ ds, b.status = Status.good_physical ∨ b.status = Status.partialDie
        ∨ b.status = Status.lost := fun b hb => h b (List.mem_cons_of_mem d hb)
    by_cases hgp : d.status = Status.good_physical
    · simp only [inject_go, if_pos hgp, List.mem_cons]
      rintro e (rfl | he)
      · by_cases hs : stream k < yf <;> simp [hs]
      · exact inject_go_status stream yf ds (k + 1) hds e he
    · simp only [inject_go, if_neg hgp, List.mem_cons]
      rintro e (rfl | he)
      · rcases h e (by simp) with hc | hc | hc
        · exact absurd hc hgp
        · exact Or.inr (Or.inr (Or.inl hc))
        · exact Or.inr (Or.inr (Or.inr hc))
      · exact inject_go_status stream yf ds k hds e he

/-- Injection never touches the geometric fields. -/
lemma inject_go_geom (stream : ℕ → ℚ) (yf : ℚ) :
    ∀ (l : List Die) (k : ℕ),
      (inject_go stream yf k l).1.map (fun d => (d.x, d.y, d.corners))
        = l.map (fun d => (d.x, d.y, d.corners))
  | [], _ => by simp [inject_go]
  | d :: ds, k => by
    by_cases h : d.status = Status.good_physical
    · simp only [inject_go, if_pos h, List.map_cons]
      simp [inject_go_geom stream yf ds (k + 1)]
    · simp only [inject_go, if_neg h, List.map_cons]
      simp [inject_go_geom stream yf ds k]

/-- The good/defective resolution depends only on the status sequence (and
the stream), not on the dies' geometry. -/
lemma inject_go_status_congr (stream : ℕ → ℚ) (yf : ℚ) :
    ∀ (l1 l2 : List Die) (k : ℕ),
      l1.map Die.status = l2.map Die.status →
      (inject_go stream yf k l1).1.map Die.status
          = (inject_go stream yf k l2).1.map Die.status
        ∧ (inject_go stream yf k l1).2 = (inject_go stream yf k l2).2
  | [], l2, k, h => by
    have : l2 = [] := by
      cases l2
      · rfl
      · simp at h
    subst this
    exact ⟨rfl, rfl⟩
  | d :: ds, l2, k, h => by
    cases l2 with
    | nil => simp at h
    | cons e es =>
      simp only [List.map_cons, List.cons.injEq] at h
      obtain ⟨hst, hrest⟩ := h
      by_cases hgp : d.status = Status.good_physical
      · have hegp : e.status = Status.good_physical := by rw [← hst]; exact hgp
        obtain ⟨h1, h2⟩ := inject_go_status_congr stream yf ds es (k + 1) hrest
        simp only [inject_go, if_pos hgp, if_pos hegp, List.map_cons]
        exact ⟨by rw [h1], h2⟩
      · have hegp : e.status ≠ Status.good_physical := by rw [← hst]; exact hgp
        obtain ⟨h1, h2⟩ := inject_go_status_congr stream yf ds es k hrest
        simp only [inject_go, if_neg hgp, if_neg hegp, List.map_cons]
        exact ⟨by rw [hst, h1], h2⟩

lemma classify_all_status (base : List Die) (sub : Substrate) :
    ∀ d ∈ classify_all base sub,
      d.status = Status.good_physical ∨ d.status = Status.partialDie
        ∨ d.status = Status.lost := by
  intro d hd
  simp only [classify_all, List.mem_map] at hd
  obtain ⟨b, _, rfl⟩ := hd
  exact classify_die_status_cases b sub

lemma classify_all_geom (base : List Die) (sub : Substrate) :
    (classify_all base sub).map (fun d => (d.x, d.y, d.corners))
      = base.map (fun d => (d.x, d.y, d.corners)) := by
  simp [classify_all, List.map_map, Function.comp_def]

/-- On a list whose statuses are among the four terminal ones, the four
`countP`s partition the length. -/
lemma countP_status_partition :
    ∀ (l : List Die),
      (∀ d ∈ l, d.status = Status.good ∨ d.status = Status.defective
        ∨ d.status = Status.partialDie ∨ d.status = Status.lost) →
      l.countP (fun d => d.status == Status.good)
        + l.countP (fun d => d.status == Status.defective)
        + l.countP (fun d => d.status == Status.partialDie)
        + l.countP (fun d => d.status == Status.lost) = l.length
  | [], _ => rfl
  | d :: ds, h => by
    have ih := countP_status_partition ds (fun b hb => h b (by simp [hb]))
    rcases h d (by simp) with hc | hc | hc | hc <;>
      simp [List.countP_cons, hc] <;> omega

lemma countP_good_or_defective :
    ∀ (l : List Die),
      l.countP (fun d => d.status == Status.good || d.status == Status.defective)
        = l.countP (fun d => d.status == Status.good)
          + l.countP (fun d => d.status == Status.defective)
  | [] => rfl
  | d :: ds => by
    have ih := countP_good_or_defective ds
    cases hc : d.status <;> simp [List.countP_cons, hc, ih] <;> omega

/-- The tally invariants, for any dice list with terminal statuses. -/
lemma tally_invariants (l : List Die)
    (h : ∀ d ∈ l, d.status = Status.good ∨ d.status = Status.defective
      ∨ d.status = Status.partialDie ∨ d.status = Status.lost) :
    (tally l).good + (tally l).defective + (tally l).partialDie + (tally l).lost
        = (tally l).total
    ∧ (tally l).good_physical = (tally l).good + (tally l).defective
    ∧ (tally l).fab_yield =
        (if 0 < (tally l).good + (tally l).defective then
          ((tally l).good : ℚ) / (((tally l).good : ℚ) + ((tally l).defective : ℚ))
        else 0)
    ∧ 0 ≤ (tally l).fab_yield ∧ (tally l).fab_yield ≤ 1 := by
  have hpart := countP_status_partition l h
  have hgd := countP_good_or_defective l
  refine ⟨by simpa [tally] using hpart, by simpa [tally] using hgd, rfl, ?_, ?_⟩
  · simp only [tally]
    split_ifs with hpos
    · positivity
    · norm_num
  · simp only [tally]
    split_ifs with hpos
    · have hq : (0 : ℚ) < (l.countP (fun d => d.status == Status.good) : ℚ)
          + (l.countP (fun d => d.status == Status.defective) : ℚ) := by
        exact_mod_cast hpos
      rw [div_le_one hq]
      have : (0 : ℚ) ≤ (l.countP (fun d => d.status == Status.defective) : ℚ) :=
        Nat.cast_nonneg _
      linarith
    · norm_num

/-- Every trial result produced by the simulation loop is the tally of the
freshly classified base dice with defects injected from some stream. -/
lemma run_sim_go_mem (rand : ℤ → ℕ → ℚ) (amb : ℕ → ℚ) (base : List Die) (sub : Substrate)
    (yf : ℚ) (seedOpt : Option ℤ) :
    ∀ (rem run pos : ℕ) (r : TrialResult),
      r ∈ run_sim_go rand amb base sub yf seedOpt run rem pos →
      ∃ stream, r = tally (inject_defects (classify_all base sub) yf stream) := by
  intro rem
  induction rem with
  | zero => intro run pos r hr; simp [run_sim_go] at hr
  | succ rem ih =>
    intro run pos r hr
    cases seedOpt with
    | some s =>
      simp only [run_sim_go, List.mem_cons] at hr
      rcases hr with rfl | hr
      · exact ⟨rand (s + (run : ℤ)), rfl⟩
      · exact ih (run + 1) pos r hr
    | none =>
      simp only [run_sim_go, List.mem_cons] at hr
      rcases hr with rfl | hr
      · exact ⟨fun i => amb (pos + i), rfl⟩
      · exact ih (run + 1) _ r hr

/-- With a provided seed, the simulation loop is a pure map over the trial
indices: trial `run + i` reads the stream seeded with `s + (run + i)`. -/
lemma run_sim_go_seeded (rand : ℤ → ℕ → ℚ) (amb : ℕ → ℚ) (base : List Die) (sub : Substrate)
    (yf : ℚ) (s : ℤ) :
    ∀ (rem run pos : ℕ),
      run_sim_go rand amb base sub yf (some s) run rem pos =
        (List.range rem).map (fun (i : ℕ) =>
          tally (inject_defects (classify_all base sub) yf (rand (s + (run : ℤ) + (i : ℤ))))) := by
  intro rem
  induction rem with
  | zero => intro run pos; rfl
  | succ rem ih =>
    intro run pos
    rw [List.range_succ_eq_map, List.map_cons, List.map_map]
    simp only [run_sim_go, ih (run + 1) pos]
    refine congrArg₂ List.cons ?_ ?_
    · norm_num
    · refine List.map_congr_left (fun i _ => ?_)
      have harg : s + ((run : ℤ) + 1) + (i : ℤ) = s + (run : ℤ) + ((i : ℤ) + 1) := by ring
      simp [Function.comp_def, harg]

/-! ### Claim theorems -/

/-- C4: `classify_die` counts the die's 4 corners that satisfy the
substrate's inside-test — for a Wafer the closed disk
`cx² + cy² ≤ effective_radius²`, for a Panel the closed rectangle
`margin ≤ cx ≤ panel_width - margin` and `margin ≤ cy ≤ panel_height - margin`
— and returns `good_physical` iff exactly 4 corners are inside, `partial`
iff 1 to 3 are inside, and `lost` iff 0 are inside. -/
theorem classify_die_corner_rule (die : Die) (sub : Substrate)
    (h4 : die.corners.length = 4) :
    ((classify_die die sub = Status.good_physical ↔
        die.corners.countP (insideTest sub) = 4)
      ∧ (classify_die die sub = Status.partialDie ↔
        1 ≤ die.corners.countP (insideTest sub) ∧ die.corners.countP (insideTest sub) ≤ 3)
      ∧ (classify_die die sub = Status.lost ↔ die.corners.countP (insideTest sub) = 0))
    ∧ (∀ x y rad er : ℚ,
        insideTest (Substrate.wafer rad er) (x, y) = decide (x ^ 2 + y ^ 2 ≤ er ^ 2))
    ∧ (∀ x y pw ph el : ℚ,
        insideTest (Substrate.panel pw ph el) (x, y) =
          decide (el ≤ x ∧ x ≤ pw - el ∧ el ≤ y ∧ y ≤ ph - el)) := by
  have hle : die.corners.countP (insideTest sub) ≤ 4 := by
    rw [← h4]; exact List.countP_le_length _
  refine ⟨⟨?_, ?_, ?_⟩, fun x y rad er => rfl, fun x y pw ph el => rfl⟩ <;>
    rw [classify_die_eq] <;> split_ifs <;> simp_all <;> omega

/-- Witness for C4 on a concrete four-corner die. -/
theorem classify_die_corner_rule_witness :
    (Die.corners ⟨0, 0, [(0, 0), (1, 0), (0, 1), (1, 1)], Status.pending⟩).length = 4
    ∧ (classify_die ⟨0, 0, [(0, 0), (1, 0), (0, 1), (1, 1)], Status.pending⟩
          (Substrate.wafer 150 150) = Status.good_physical ↔
        (Die.corners ⟨0, 0, [(0, 0), (1, 0), (0, 1), (1, 1)], Status.pending⟩).countP
          (insideTest (Substrate.wafer 150 150)) = 4) :=
  ⟨rfl,
   (classify_die_corner_rule ⟨0, 0, [(0, 0), (1, 0), (0, 1), (1, 1)], Status.pending⟩
     (Substrate.wafer 150 150) rfl).1.1⟩

/-- C10: the wafer inside-test is sign-symmetric in its radius argument
(`is_inside_wafer x y r = is_inside_wafer x y (-r)` since it compares
`x² + y²` against `r²`), so a Wafer with a negative `effective_radius`
classifies dies exactly as one with `|effective_radius|` would, and such a
configuration can still produce `good_physical` dice. -/
theorem wafer_inside_sign_symmetric :
    (∀ x y r : ℚ, is_inside_wafer x y r = is_inside_wafer x y (-r))
    ∧ (∀ (die : Die) (rad er : ℚ),
        classify_die die (Substrate.wafer rad er) = classify_die die (Substrate.wafer rad |er|))
    ∧ (∃ (die : Die) (er : ℚ), er < 0
        ∧ classify_die die (Substrate.wafer 150 er) = Status.good_physical) := by
  refine ⟨?_, ?_, ?_⟩
  · intro x y r
    simp only [is_inside_wafer]
    rw [decide_eq_decide, neg_pow]
    norm_num
  · intro die rad er
    exact classify_wafer_congr die rad er |er| (sq_abs er).symm
  · refine ⟨⟨0, 0, [(0, 0), (1, 0), (0, 1), (1, 1)], Status.pending⟩, -10, by norm_num, ?_⟩
    rw [classify_die_eq]
    norm_num [insideTest, is_inside_wafer, List.countP_cons, List.countP_nil]

/-- C1 counterexample: a Wafer configuration with negative
`effective_radius` (edge_loss exceeding the radius) still classifies a die
near the origin as `good_physical`, contradicting the claim that
classification then never returns `good_physical`. -/
theorem negative_radius_counterexample :
    classify_die ⟨0, 0, [(0, 0), (1, 0), (0, 1), (1, 1)], Status.pending⟩
      (Substrate.wafer 150 (-10)) = Status.good_physical := by
  rw [classify_die_eq]
  norm_num [insideTest, is_inside_wafer, List.countP_cons, List.countP_nil]

/-- C1 (amended): negative usable extents never crash the engine (all
functions are total). For a Panel whose `edge_loss` exceeds half a panel
dimension no die ever classifies as `good_physical`; a Wafer with
`effective_radius < 0`, however, classifies dies exactly as one with
radius `-effective_radius`, so it can still yield `good_physical` dice. -/
theorem degenerate_geometry_amended :
    (∀ (pw ph el : ℚ) (die : Die), pw - 2 * el < 0 ∨ ph - 2 * el < 0 →
      classify_die die (Substrate.panel pw ph el) ≠ Status.good_physical)
    ∧ (∀ (rad er : ℚ) (die : Die), er < 0 →
      classify_die die (Substrate.wafer rad er)
        = classify_die die (Substrate.wafer rad (-er))) := by
  constructor
  · intro pw ph el die h
    have hzero : die.corners.countP (insideTest (Substrate.panel pw ph el)) = 0 := by
      rw [List.countP_eq_zero]
      intro c _
      simp only [insideTest, is_inside_panel, decide_eq_true_eq, not_and]
      intro h1 h2 h3
      rcases h with h | h
      · exact absurd (le_trans h1 h2) (by linarith)
      · intro h4; exact absurd (le_trans h3 h4) (by linarith)
    rw [classify_die_eq, hzero]
    simp
  · intro rad er die _
    exact classify_wafer_congr die rad er (-er) (by ring)

/-- Witness for C1 (amended) at a concrete degenerate Panel and Wafer. -/
theorem degenerate_geometry_amended_witness :
    ((10 : ℚ) - 2 * 6 < 0 ∨ (10 : ℚ) - 2 * 6 < 0)
    ∧ classify_die ⟨0, 0, [(0, 0), (1, 0), (0, 1), (1, 1)], Status.pending⟩
        (Substrate.panel 10 10 6) ≠ Status.good_physical
    ∧ ((-10 : ℚ) < 0)
    ∧ classify_die ⟨0, 0, [(0, 0), (1, 0), (0, 1), (1, 1)], Status.pending⟩
        (Substrate.wafer 150 (-10))
      = classify_die ⟨0, 0, [(0, 0), (1, 0), (0, 1), (1, 1)], Status.pending⟩
        (Substrate.wafer 150 (-(-10))) :=
  ⟨by left; norm_num,
   degenerate_geometry_amended.1 10 10 6 _ (by left; norm_num),
   by norm_num,
   degenerate_geometry_amended.2 150 (-10) _ (by norm_num)⟩

/-- C5: with positive shot and die dimensions and non-negative scribe gaps,
`compute_geometry` places `floor((shot_dim + scribe) / (die_dim + scribe))`
dies per shot axis — so the total die count is the shot-grid size times
that per-tile grid; for shot 26×33, die 5×5, scribe 0.2×0.2 this is 5 × 6
dies per tile; and a die larger than the shot gives count 0 and an empty
die set without erroring. -/
theorem compute_geometry_die_grid (sub : Substrate) (sw sh dw dh sx sy : ℚ)
    (hsw : 0 < sw) (hsh : 0 < sh) (hdw : 0 < dw) (hdh : 0 < dh)
    (hsx : 0 ≤ sx) (hsy : 0 ≤ sy) :
    (compute_geometry sub sw sh dw dh sx sy).length =
      (shot_positions sub sw sh).1.length * ((shot_positions sub sw sh).2.length *
        (num_dice sw dw sx * num_dice sh dh sy))
    ∧ num_dice sw dw sx = (Int.floor ((sw + sx) / (dw + sx))).toNat
    ∧ num_dice 26 5 0.2 = 5 ∧ num_dice 33 5 0.2 = 6
    ∧ (sw < dw → num_dice sw dw sx = 0 ∧ compute_geometry sub sw sh dw dh sx sy = []) := by
  refine ⟨?_, rfl, ?_, ?_, ?_⟩
  · unfold compute_geometry
    simp [List.length_flatMap, List.length_map, List.length_range, Function.comp_def,
      List.map_const', List.sum_replicate, smul_eq_mul]
  · have h : Int.floor ((26 + 0.2) / (5 + 0.2) : ℚ) = 5 := by
      rw [Int.floor_eq_iff] <;> norm_num
    simp [num_dice, h]
  · have h : Int.floor ((33 + 0.2) / (5 + 0.2) : ℚ) = 6 := by
      rw [Int.floor_eq_iff] <;> norm_num
    simp [num_dice, h]
  · intro hlt
    have hd : (0 : ℚ) < dw + sx := by linarith
    have hfl : Int.floor ((sw + sx) / (dw + sx)) = 0 := by
      rw [Int.floor_eq_zero_iff]
      constructor
      · exact div_nonneg (by linarith) hd.le
      · exact (div_lt_one hd).mpr (by linarith)
    have h0 : num_dice sw dw sx = 0 := by simp [num_dice, hfl]
    refine ⟨h0, ?_⟩
    unfold compute_geometry
    rw [h0]
    simp [flatMap_const_nil]

/-- Witness for C5 at the spec's Scenario A parameters. -/
theorem compute_geometry_die_grid_witness :
    ((0 : ℚ) < 26 ∧ (0 : ℚ) < 33 ∧ (0 : ℚ) < 5 ∧ (0 : ℚ) < 5 ∧ (0 : ℚ) ≤ 0.2 ∧ (0 : ℚ) ≤ 0.2)
    ∧ ((compute_geometry (Substrate.wafer 150 150) 26 33 5 5 0.2 0.2).length =
        (shot_positions (Substrate.wafer 150 150) 26 33).1.length *
          ((shot_positions (Substrate.wafer 150 150) 26 33).2.length *
            (num_dice 26 5 0.2 * num_dice 33 5 0.2))
      ∧ num_dice 26 5 0.2 = (Int.floor ((26 + 0.2) / (5 + 0.2) : ℚ)).toNat
      ∧ num_dice 26 5 0.2 = 5 ∧ num_dice 33 5 0.2 = 6
      ∧ ((26 : ℚ) < 5 → num_dice 26 5 0.2 = 0
          ∧ compute_geometry (Substrate.wafer 150 150) 26 33 5 5 0.2 0.2 = [])) :=
  ⟨by norm_num,
   compute_geometry_die_grid (Substrate.wafer 150 150) 26 33 5 5 0.2 0.2
     (by norm_num) (by norm_num) (by norm_num) (by norm_num) (by norm_num) (by norm_num)⟩

/-- C2 counterexample: `run_simulation` with `numTrials = 0` does not fail
with an error — it returns normally with the empty result list (the code
has no `numTrials < 1` validation; `range(0)` is simply empty). -/
theorem run_simulation_zero_trials_counterexample :
    run_simulation (fun _ _ => 0) (fun _ => 0) 0
      [⟨0, 0, [(0, 0), (1, 0), (0, 1), (1, 1)], Status.pending⟩]
      (Substrate.wafer 150 150) (1 / 2) (some 42) = [] := rfl

/-- C2 (amended): `run_simulation` performs no validation of `numTrials`:
for `numTrials < 1` it returns normally with the empty result list (no
`TrialResult` is produced and no error is raised), and in general it is a
total function producing exactly `max numTrials 0` trial results, so
per-trial work never throws. -/
theorem run_simulation_nonpositive_trials (rand : ℤ → ℕ → ℚ) (amb : ℕ → ℚ) (n : ℤ)
    (base : List Die) (sub : Substrate) (yf : ℚ) (seedOpt : Option ℤ) :
    (n < 1 → run_simulation rand amb n base sub yf seedOpt = [])
    ∧ (run_simulation rand amb n base sub yf seedOpt).length = n.toNat := by
  have hlen : ∀ (rem run pos : ℕ),
      (run_sim_go rand amb base sub yf seedOpt run rem pos).length = rem := by
    intro rem
    induction rem with
    | zero => intro run pos; rfl
    | succ rem ih =>
      intro run pos
      cases seedOpt <;> simp [run_sim_go, ih]
  constructor
  · intro hn
    unfold run_simulation
    rw [Int.toNat_of_nonpos (by omega)]
    rfl
  · exact hlen _ _ _

/-- C3: for every trial result returned by `run_simulation`,
`good + defective + partial + lost = total`, the reported `good_physical`
count equals `good + defective`, and `fab_yield` equals
`good / (good + defective)` when the denominator is positive and `0`
otherwise; consequently `fab_yield ∈ [0, 1]`. -/
theorem trial_tally_invariants (rand : ℤ → ℕ → ℚ) (amb : ℕ → ℚ) (n : ℤ)
    (base : List Die) (sub : Substrate) (yf : ℚ) (seedOpt : Option ℤ)
    (r : TrialResult) (hr : r ∈ run_simulation rand amb n base sub yf seedOpt) :
    r.good + r.defective + r.partialDie + r.lost = r.total
    ∧ r.good_physical = r.good + r.defective
    ∧ r.fab_yield = (if 0 < r.good + r.defective then
        (r.good : ℚ) / ((r.good : ℚ) + (r.defective : ℚ)) else 0)
    ∧ 0 ≤ r.fab_yield ∧ r.fab_yield ≤ 1 := by
  obtain ⟨stream, rfl⟩ := run_sim_go_mem rand amb base sub yf seedOpt _ _ _ r hr
  refine tally_invariants _ ?_
  intro d hd
  simp only [inject_defects] at hd
  exact inject_go_status stream yf _ 0 (classify_all_status base sub) d hd

/-- Witness for C3 on a concrete one-trial simulation. -/
theorem trial_tally_invariants_witness :
    (tally [] ∈ run_simulation (fun _ _ => 0) (fun _ => 0) 1 [] (Substrate.wafer 150 150) 0
      (some 0))
    ∧ ((tally []).good + (tally []).defective + (tally []).partialDie + (tally []).lost
        = (tally []).total
      ∧ (tally []).good_physical = (tally []).good + (tally []).defective
      ∧ (tally []).fab_yield = (if 0 < (tally []).good + (tally []).defective then
          ((tally []).good : ℚ) / (((tally []).good : ℚ) + ((tally []).defective : ℚ)) else 0)
      ∧ 0 ≤ (tally []).fab_yield ∧ (tally []).fab_yield ≤ 1) := by
  have hm : tally [] ∈ run_simulation (fun _ _ => 0) (fun _ => 0) 1 []
      (Substrate.wafer 150 150) 0 (some 0) := by
    simp [run_simulation, run_sim_go, classify_all, inject_defects, inject_go]
  exact ⟨hm, trial_tally_invariants (fun _ _ => 0) (fun _ => 0) 1 [] (Substrate.wafer 150 150) 0
    (some 0) (tally []) hm⟩

/-- C7: defect injection is deterministic — with the same seeded stream and
the same status sequence, `inject_defects` reproduces the identical
good/defective assignment regardless of die geometry; and with a provided
base seed, `run_simulation` injects trial `k` with seed `baseSeed + k`, so
the result of trial `k` is independent of the total number of trials. -/
theorem defect_injection_deterministic :
    (∀ (stream : ℕ → ℚ) (yf : ℚ) (d1 d2 : List Die),
      d1.map Die.status = d2.map Die.status →
      (inject_defects d1 yf stream).map Die.status
        = (inject_defects d2 yf stream).map Die.status)
    ∧ (∀ (rand : ℤ → ℕ → ℚ) (amb : ℕ → ℚ) (n : ℤ) (base : List Die) (sub : Substrate)
        (yf : ℚ) (s : ℤ) (k : ℕ), k < n.toNat →
      (run_simulation rand amb n base sub yf (some s))[k]? =
        some (tally (inject_defects (classify_all base sub) yf (rand (s + (k : ℤ))))))
    ∧ (∀ (rand : ℤ → ℕ → ℚ) (amb : ℕ → ℚ) (n1 n2 : ℤ) (base : List Die) (sub : Substrate)
        (yf : ℚ) (s : ℤ) (k : ℕ), k < n1.toNat → k < n2.toNat →
      (run_simulation rand amb n1 base sub yf (some s))[k]? =
        (run_simulation rand amb n2 base sub yf (some s))[k]?) := by
  have hmain : ∀ (rand : ℤ → ℕ → ℚ) (amb : ℕ → ℚ) (n : ℤ) (base : List Die) (sub : Substrate)
      (yf : ℚ) (s : ℤ) (k : ℕ), k < n.toNat →
      (run_simulation rand amb n base sub yf (some s))[k]? =
        some (tally (inject_defects (classify_all base sub) yf (rand (s + (k : ℤ))))) := by
    intro rand amb n base sub yf s k hk
    rw [run_simulation, run_sim_go_seeded, List.getElem?_map, List.getElem?_range hk]
    simp
  refine ⟨?_, hmain, ?_⟩
  · intro stream yf d1 d2 h
    simpa [inject_defects] using (inject_go_status_congr stream yf d1 d2 0 h).1
  · intro rand amb n1 n2 base sub yf s k h1 h2
    rw [hmain rand amb n1 base sub yf s k h1, hmain rand amb n2 base sub yf s k h2]

/-- Witness for C7 on concrete streams, dice and trial counts. -/
theorem defect_injection_deterministic_witness :
    (([⟨0, 0, [], Status.good_physical⟩] : List Die).map Die.status
        = ([⟨5, 7, [(5, 7)], Status.good_physical⟩] : List Die).map Die.status
      ∧ (inject_defects [⟨0, 0, [], Status.good_physical⟩] (1 / 2) (fun _ => 0)).map Die.status
        = (inject_defects [⟨5, 7, [(5, 7)], Status.good_physical⟩] (1 / 2)
            (fun _ => 0)).map Die.status)
    ∧ (0 < (1 : ℤ).toNat
      ∧ (run_simulation (fun _ _ => 0) (fun _ => 0) 1 [] (Substrate.wafer 150 150) 0
          (some 42))[0]? =
        some (tally (inject_defects (classify_all [] (Substrate.wafer 150 150)) 0
          ((fun _ _ => 0 : ℤ → ℕ → ℚ) (42 + ((0 : ℕ) : ℤ))))))
    ∧ (0 < (2 : ℤ).toNat
      ∧ (run_simulation (fun _ _ => 0) (fun _ => 0) 1 [] (Substrate.wafer 150 150) 0
          (some 42))[0]? =
        (run_simulation (fun _ _ => 0) (fun _ => 0) 2 [] (Substrate.wafer 150 150) 0
          (some 42))[0]?) :=
  ⟨⟨rfl, defect_injection_deterministic.1 (fun _ => 0) (1 / 2)
      [⟨0, 0, [], Status.good_physical⟩] [⟨5, 7, [(5, 7)], Status.good_physical⟩] rfl⟩,
   ⟨by norm_num, defect_injection_deterministic.2.1 (fun _ _ => 0) (fun _ => 0) 1 []
      (Substrate.wafer 150 150) 0 42 0 (by norm_num)⟩,
   ⟨by norm_num, defect_injection_deterministic.2.2 (fun _ _ => 0) (fun _ => 0) 1 2 []
      (Substrate.wafer 150 150) 0 42 0 (by norm_num) (by norm_num)⟩⟩

/-- C9: frame property of defect injection — `inject_defects` changes only
the `status` of `good_physical` dies (each becomes `good` or `defective`),
leaves every other die entirely unchanged, preserves the geometry fields
`x, y, corners` of every die, and `run_simulation` leaves the base dice
geometry intact in every trial (each trial works on its own copy). -/
theorem inject_defects_frame :
    (∀ (dice : List Die) (yf : ℚ) (stream : ℕ → ℚ),
      List.Forall₂ (fun d e => e.x = d.x ∧ e.y = d.y ∧ e.corners = d.corners
        ∧ (d.status ≠ Status.good_physical → e = d)
        ∧ (d.status = Status.good_physical →
            e.status = Status.good ∨ e.status = Status.defective))
        dice (inject_defects dice yf stream))
    ∧ (∀ (rand : ℤ → ℕ → ℚ) (amb : ℕ → ℚ) (n : ℤ) (base : List Die) (sub : Substrate)
        (yf : ℚ) (seedOpt : Option ℤ) (r : TrialResult),
        r ∈ run_simulation rand amb n base sub yf seedOpt →
        r.dice.map (fun d => (d.x, d.y, d.corners))
          = base.map (fun d => (d.x, d.y, d.corners))) := by
  constructor
  · intro dice yf stream
    exact inject_go_forall₂ stream yf dice 0
  · intro rand amb n base sub yf seedOpt r hr
    obtain ⟨stream, rfl⟩ := run_sim_go_mem rand amb base sub yf seedOpt _ _ _ r hr
    have hdice : (tally (inject_defects (classify_all base sub) yf stream)).dice
        = inject_defects (classify_all base sub) yf stream := rfl
    rw [hdice]
    calc (inject_defects (classify_all base sub) yf stream).map
          (fun d => (d.x, d.y, d.corners))
        = (classify_all base sub).map (fun d => (d.x, d.y, d.corners)) :=
          inject_go_geom stream yf _ 0
      _ = base.map (fun d => (d.x, d.y, d.corners)) := classify_all_geom base sub

/-- Witness for C9 on a concrete one-trial simulation. -/
theorem inject_defects_frame_witness :
    (tally [] ∈ run_simulation (fun _ _ => 0) (fun _ => 0) 1 [] (Substrate.wafer 150 150) 0
      (some 5))
    ∧ (tally []).dice.map (fun d => (d.x, d.y, d.corners))
        = ([] : List Die).map (fun d => (d.x, d.y, d.corners)) := by
  have hm : tally [] ∈ run_simulation (fun _ _ => 0) (fun _ => 0) 1 []
      (Substrate.wafer 150 150) 0 (some 5) := by
    simp [run_simulation, run_sim_go, classify_all, inject_defects, inject_go]
  exact ⟨hm, inject_defects_frame.2 (fun _ _ => 0) (fun _ => 0) 1 [] (Substrate.wafer 150 150) 0
    (some 5) (tally []) hm⟩

/-- Witness for C2 (amended) at `numTrials = 0`. -/
theorem run_simulation_nonpositive_trials_witness :
    ((0 : ℤ) < 1
      ∧ run_simulation (fun _ _ => 0) (fun _ => 0) 0 [] (Substrate.wafer 150 150) 0 none = [])
    ∧ (run_simulation (fun _ _ => 0) (fun _ => 0) 0 [] (Substrate.wafer 150 150) 0 none).length
        = (0 : ℤ).toNat :=
  ⟨⟨by norm_num,
    (run_simulation_nonpositive_trials (fun _ _ => 0) (fun _ => 0) 0 [] (Substrate.wafer 150 150)
      0 none).1 (by norm_num)⟩,
   (run_simulation_nonpositive_trials (fun _ _ => 0) (fun _ => 0) 0 [] (Substrate.wafer 150 150)
      0 none).2⟩

/-- C6: `compute_yield_fraction` computes `D = defect_rate * (critical_area
/ 100)` and returns `exp(-D)` for Poisson, `((1 - exp(-D))/D)²` for Murphy,
`(1 - exp(-2D))/(2D)` for Rectangular, `exp(-√D)` for Moore, `1/(1+D)` for
Seeds, falls back to the Poisson formula for every unrecognized model name,
and returns exactly `1` for every model when `defect_rate = 0`. -/
theorem compute_yield_fraction_models (defect_rate critical_area : ℝ) (m : String)
    (hdr : 0 ≤ defect_rate) (hca : 0 ≤ critical_area) :
    (compute_yield_fraction defect_rate critical_area "Poisson"
        = Real.exp (-(defect_rate * (critical_area / 100))))
    ∧ (defect_rate * (critical_area / 100) ≠ 0 →
        compute_yield_fraction defect_rate critical_area "Murphy"
          = ((1 - Real.exp (-(defect_rate * (critical_area / 100))))
              / (defect_rate * (critical_area / 100))) ^ 2)
    ∧ (defect_rate * (critical_area / 100) ≠ 0 →
        compute_yield_fraction defect_rate critical_area "Rectangular"
          = (1 - Real.exp (-2 * (defect_rate * (critical_area / 100))))
              / (2 * (defect_rate * (critical_area / 100))))
    ∧ (compute_yield_fraction defect_rate critical_area "Moore"
        = Real.exp (-Real.sqrt (defect_rate * (critical_area / 100))))
    ∧ (compute_yield_fraction defect_rate critical_area "Seeds"
        = 1 / (1 + defect_rate * (critical_area / 100)))
    ∧ (m ∉ ["Poisson", "Murphy", "Rectangular", "Moore", "Seeds"] →
        compute_yield_fraction defect_rate critical_area m
          = Real.exp (-(defect_rate * (critical_area / 100))))
    ∧ (defect_rate = 0 → compute_yield_fraction defect_rate critical_area m = 1) := by
  refine ⟨?_, ?_, ?_, ?_, ?_, ?_, ?_⟩
  · unfold compute_yield_fraction
    rw [if_pos rfl]
  · intro hD
    unfold compute_yield_fraction
    rw [if_neg (by decide), if_pos rfl, if_pos hD]
  · intro hD
    unfold compute_yield_fraction
    rw [if_neg (by decide), if_neg (by decide), if_pos rfl, if_pos hD]
  · unfold compute_yield_fraction
    rw [if_neg (by decide), if_neg (by decide), if_neg (by decide), if_pos rfl]
  · unfold compute_yield_fraction
    rw [if_neg (by decide), if_neg (by decide), if_neg (by decide), if_neg (by decide),
      if_pos rfl]
  · intro hm
    simp only [List.mem_cons, List.not_mem_nil, or_false, not_or] at hm
    obtain ⟨h1, h2, h3, h4, h5⟩ := hm
    unfold compute_yield_fraction
    rw [if_neg h1, if_neg h2, if_neg h3, if_neg h4, if_neg h5]
  · intro h0
    have hD : defect_rate * (critical_area / 100) = 0 := by rw [h0, zero_mul]
    unfold compute_yield_fraction
    split_ifs <;>
      simp_all [Real.exp_zero, Real.sqrt_zero]

/-- Witness for C6: the Murphy model at `defect_rate = 0` returns exactly 1
(removable singularity). -/
theorem compute_yield_fraction_models_witness :
    (0 : ℝ) ≤ 0 ∧ (0 : ℝ) ≤ 25 ∧ compute_yield_fraction 0 25 "Murphy" = 1 :=
  ⟨le_refl 0, by norm_num,
   (compute_yield_fraction_models 0 25 "Murphy" (le_refl 0) (by norm_num)).2.2.2.2.2.2 rfl⟩

/-- C8: for fixed `critical_area ≥ 0`, increasing the defect rate never
increases the yield fraction under the Poisson, Moore, or Seeds model. -/
theorem compute_yield_fraction_monotone (critical_area r1 r2 : ℝ) (m : String)
    (hca : 0 ≤ critical_area) (h1 : 0 ≤ r1) (h12 : r1 ≤ r2)
    (hm : m = "Poisson" ∨ m = "Moore" ∨ m = "Seeds") :
    compute_yield_fraction r2 critical_area m ≤ compute_yield_fraction r1 critical_area m := by
  have hD12 : r1 * (critical_area / 100) ≤ r2 * (critical_area / 100) :=
    mul_le_mul_of_nonneg_right h12 (by positivity)
  have hD1 : 0 ≤ r1 * (critical_area / 100) := by positivity
  rcases hm with rfl | rfl | rfl
  · unfold compute_yield_fraction
    rw [if_pos rfl, if_pos rfl]
    exact Real.exp_le_exp.mpr (by linarith)
  · unfold compute_yield_fraction
    rw [if_neg (by decide), if_neg (by decide), if_neg (by decide), if_pos rfl,
      if_neg (by decide), if_neg (by decide), if_neg (by decide), if_pos rfl]
    exact Real.exp_le_exp.mpr (neg_le_neg (Real.sqrt_le_sqrt hD12))
  · unfold compute_yield_fraction
    rw [if_neg (by decide), if_neg (by decide), if_neg (by decide), if_neg (by decide),
      if_pos rfl, if_neg (by decide), if_neg (by decide), if_neg (by decide),
      if_neg (by decide), if_pos rfl]
    exact one_div_le_one_div_of_le (by linarith) (by linarith)

/-- Witness for C8: Poisson yield at defect rate 1 is at most the yield at
defect rate 0. -/
theorem compute_yield_fraction_monotone_witness :
    (0 : ℝ) ≤ 25 ∧ (0 : ℝ) ≤ 0 ∧ (0 : ℝ) ≤ 1
    ∧ (("Poisson" : String) = "Poisson" ∨ ("Poisson" : String) = "Moore"
        ∨ ("Poisson" : String) = "Seeds")
    ∧ compute_yield_fraction 1 25 "Poisson" ≤ compute_yield_fraction 0 25 "Poisson" :=
  ⟨by norm_num, le_refl 0, by norm_num, Or.inl rfl,
   compute_yield_fraction_monotone 25 0 1 "Poisson" (by norm_num) (le_refl 0) (by norm_num)
     (Or.inl rfl)⟩

end DieYield
